import Mathlib

/-!
Verification of the net_promoter_score library (src/src/lib.rs).

The library gathers survey responses (a respondent id paired with a 0..10
rating), classifies them into Detractor / Passive / Promoter segments and
derives the Net Promoter Score.  The Rust state is embedded shallowly:

* `Rating` is the validated score newtype (a `u8` proven `≤ 10`);
* `NetPromoterScoreError` is the single error kind `InvalidRating(u8)`;
* `SurveyResponse` pairs a respondent id with a `Rating`;
* `Survey` holds the `BTreeMap<T, SurveyResponse<T>>` as a key-sorted
  association list plus the `nps_cache : Option<i32>` field;
* `btreeInsert` is `BTreeMap::insert` on a key-sorted association list;
* every method (`add_response`, `add_multiple_responses`,
  `add_bulk_responses`, `add_bulk_responses_auto_id`, `from_responses`,
  `segment`, `calculate_nps`, `score`, `extend`) is translated directly
  from the Rust body; mutation becomes explicit state passing.

Rust's `i32` arithmetic here only ever divides and subtracts nonnegative
quantities far below overflow, so `i32` truncating division is modelled by
`Nat` division, cast into `ℤ` for the final subtraction.
-/

deriving instance DecidableEq for Except

/-- The single error kind of the library: `NetPromoterScoreError::InvalidRating(u8)`,
carrying the offending raw rating value. -/
inductive NetPromoterScoreError : Type where
  | InvalidRating (value : ℕ) : NetPromoterScoreError
deriving DecidableEq

/-- `Rating` from the source: a `u8` survey score restricted to `0..=10`.
The Rust newtype invariant (only `TryFrom` can build one, and it checks
`value <= 10`) becomes a subtype. -/
abbrev Rating : Type := {v : ℕ // v ≤ 10}

/-- `TryFrom<u8> for Rating` (lib.rs lines 759-769): `Ok(Rating(value))` when
`value <= 10`, otherwise `Err(InvalidRating(value))`. -/
def Rating.tryFrom (value : ℕ) : Except NetPromoterScoreError Rating :=
  if h : value ≤ 10 then .ok ⟨value, h⟩
  else .error (.InvalidRating value)

/-- The three-way `Classification` enum of respondents. -/
inductive Classification : Type where
  | Detractor : Classification
  | Passive : Classification
  | Promoter : Classification
deriving DecidableEq

/-- The match arms of `From<&Rating> for Classification` (lib.rs lines
735-744) on the raw `u8`, with the `_ => unreachable!()` arm mapped to
`none`. -/
def Classification.fromRaw (v : ℕ) : Option Classification :=
  if v ≤ 6 then some .Detractor
  else if v = 7 ∨ v = 8 then some .Passive
  else if v = 9 ∨ v = 10 then some .Promoter
  else none

theorem Classification.fromRaw_isSome (v : ℕ) (h : v ≤ 10) :
    (Classification.fromRaw v).isSome := by
  interval_cases v <;> rfl

/-- `From<&Rating> for Classification`: total on `Rating` because the
`unreachable!()` arm is excluded by the `Rating` invariant. -/
def Classification.fromRating (r : Rating) : Classification :=
  (Classification.fromRaw r.1).get (Classification.fromRaw_isSome r.1 r.2)

/-- `SurveyResponse<T>`: a respondent id together with a validated score. -/
structure SurveyResponse (T : Type) : Type where
  respondent_id : T
  score : Rating
deriving DecidableEq

/-- `SurveyResponse::new` (lib.rs lines 696-702): validates the raw rating
through `Rating::try_from` and propagates its error. -/
def SurveyResponse.new {T : Type} (respondent_id : T) (rating : ℕ) :
    Except NetPromoterScoreError (SurveyResponse T) :=
  match Rating.tryFrom rating with
  | .error e => .error e
  | .ok nps_rating => .ok { respondent_id := respondent_id, score := nps_rating }

/-- `BTreeMap::insert` on the key-sorted association-list model: place the
new pair before the first larger key, replace an equal key, keep searching
past smaller keys. -/
def btreeInsert {T V : Type} [LinearOrder T] (k : T) (v : V) :
    List (T × V) → List (T × V)
  | [] => [(k, v)]
  | (k0, v0) :: rest =>
    if k < k0 then (k, v) :: (k0, v0) :: rest
    else if k = k0 then (k, v) :: rest
    else (k0, v0) :: btreeInsert k v rest

/-- `Survey<T>` (lib.rs lines 204-207): the response map and the cached
score.  `responses` is the `BTreeMap` as a key-sorted association list. -/
structure Survey (T : Type) : Type where
  responses : List (T × SurveyResponse T)
  nps_cache : Option ℤ
deriving DecidableEq

/-- `Survey::new` / `Default`: the empty survey with an empty cache. -/
def Survey.new {T : Type} : Survey T :=
  { responses := [], nps_cache := none }

/-- `Survey::add_response` (lib.rs lines 397-405): build the response (which
validates the rating), insert it under the id, and return `Ok`.  The cache
field is untouched, exactly as in the source. -/
def Survey.add_response {T : Type} [LinearOrder T] (s : Survey T)
    (respondent_id : T) (score : ℕ) :
    Except NetPromoterScoreError (Survey T) :=
  match SurveyResponse.new respondent_id score with
  | .error e => .error e
  | .ok response =>
    .ok { s with responses := btreeInsert respondent_id response s.responses }

/-- The iteration inside `Survey::add_multiple_responses` (lib.rs lines
438-446): try `add_response` on every pair, threading the survey through
the successes and collecting the errors of the failures in input order. -/
def Survey.addAll {T : Type} [LinearOrder T] (s : Survey T) :
    List (T × ℕ) → Survey T × List NetPromoterScoreError
  | [] => (s, [])
  | (respondent_id, score) :: rest =>
    match s.add_response respondent_id score with
    | .ok s2 => Survey.addAll s2 rest
    | .error e => ((Survey.addAll s rest).1, e :: (Survey.addAll s rest).2)

/-- `Survey::segment` (lib.rs lines 511-515): the stored responses, in key
order, whose classification equals the argument. -/
def Survey.segment {T : Type} (s : Survey T) (classification : Classification) :
    List (SurveyResponse T) :=
  (s.responses.map Prod.snd).filter
    (fun response => decide (Classification.fromRating response.score = classification))

/-- `Survey::calculate_nps` (lib.rs lines 255-269): cache `0` for an empty
survey, otherwise cache `100*promoters/total - 100*detractors/total` with
truncating division (the counts are nonnegative `i32`, so `Nat` division
matches). -/
def Survey.calculate_nps {T : Type} (s : Survey T) : Survey T :=
  let total_responses := s.responses.length
  if total_responses = 0 then { s with nps_cache := some 0 }
  else
    let promoters := (s.segment .Promoter).length
    let detractors := (s.segment .Detractor).length
    let promoter_percent : ℤ := (100 * promoters / total_responses : ℕ)
    let detractor_percent : ℤ := (100 * detractors / total_responses : ℕ)
    { s with nps_cache := some (promoter_percent - detractor_percent) }

/-- `Survey::score` (lib.rs lines 545-552): return the cached value when
present, otherwise recompute and return the fresh cache (`unwrap_or(0)`). -/
def Survey.score {T : Type} (s : Survey T) : ℤ × Survey T :=
  match s.nps_cache with
  | some cached_nps => (cached_nps, s)
  | none =>
    let s2 := s.calculate_nps
    (s2.nps_cache.getD 0, s2)

/-- `Survey::add_multiple_responses` (lib.rs lines 434-453): attempt every
pair, and if no error occurred recompute the cache and return `Ok(())`,
otherwise return the collected errors. -/
def Survey.add_multiple_responses {T : Type} [LinearOrder T] (s : Survey T)
    (responses : List (T × ℕ)) :
    Survey T × Except (List NetPromoterScoreError) Unit :=
  let r := s.addAll responses
  if r.2 = [] then (r.1.calculate_nps, .ok ())
  else (r.1, .error r.2)

/-- The batch built for one `(score, count)` group inside
`Survey::add_bulk_responses` (lib.rs lines 323-326): invoke the stateful id
generator `count` times, pairing each fresh id with the group's rating. -/
def genPairs {T G : Type} (gen : G → T × G) (g : G) (score : ℕ) :
    ℕ → List (T × ℕ) × G
  | 0 => ([], g)
  | Nat.succ n =>
    let r := genPairs gen (gen g).2 score n
    (((gen g).1, score) :: r.1, r.2)

/-- The `flat_map` loop of `Survey::add_bulk_responses` (lib.rs lines
321-333): per group, generate the batch and feed it through
`add_multiple_responses`, concatenating the per-group error lists. -/
def Survey.add_bulk_responsesGo {T G : Type} [LinearOrder T] (s : Survey T)
    (gen : G → T × G) (g : G) :
    List (ℕ × ℕ) → (Survey T × G) × List NetPromoterScoreError
  | [] => ((s, g), [])
  | (score, count) :: rest =>
    let bg := genPairs gen g score count
    let sr := s.add_multiple_responses bg.1
    let es := match sr.2 with
      | .ok _ => []
      | .error errors => errors
    let p := Survey.add_bulk_responsesGo sr.1 gen bg.2 rest
    (p.1, es ++ p.2)

/-- `Survey::add_bulk_responses` (lib.rs lines 313-341): run the grouped
insertion loop; with no errors recompute the cache and return `Ok(())`,
otherwise return all collected errors. -/
def Survey.add_bulk_responses {T G : Type} [LinearOrder T] (s : Survey T)
    (gen : G → T × G) (g : G) (nps_scores : List (ℕ × ℕ)) :
    (Survey T × G) × Except (List NetPromoterScoreError) Unit :=
  let r := Survey.add_bulk_responsesGo s gen g nps_scores
  if r.2 = [] then ((r.1.1.calculate_nps, r.1.2), .ok ())
  else (r.1, .error r.2)

/-- `Survey::add_bulk_responses_auto_id` (lib.rs lines 619-631): a counter
local to the call starts at `1` and increments on every invocation; the
final counter value is dropped with the closure. -/
def Survey.add_bulk_responses_auto_id (s : Survey ℤ)
    (nps_scores : List (ℕ × ℕ)) :
    Survey ℤ × Except (List NetPromoterScoreError) Unit :=
  let r :=
    s.add_bulk_responses (fun respondent_id => (respondent_id, respondent_id + 1))
      1 nps_scores
  (r.1.1, r.2)

/-- `Survey::from_responses` (lib.rs lines 355-366): run
`add_multiple_responses` on a fresh survey; return the survey on success,
or only the converted error list on failure. -/
def Survey.from_responses {T E : Type} [LinearOrder T]
    (f : NetPromoterScoreError → E) (responses : List (T × ℕ)) :
    Except (List E) (Survey T) :=
  match Survey.new.add_multiple_responses responses with
  | (survey, .ok _) => .ok survey
  | (_, .error errors) => .error (errors.map f)

/-- The `Extend` impl (lib.rs lines 681-685): insert every already-built
response pair into the map; the cache field is untouched. -/
def Survey.extend {T : Type} [LinearOrder T] (s : Survey T)
    (iter : List (T × SurveyResponse T)) : Survey T :=
  { s with responses := iter.foldl (fun m p => btreeInsert p.1 p.2 m) s.responses }

/-- Unwrap a `Result` known to be `Ok`, with an explicit default: the shape
callers of the library use at `unwrap`/`?` sites. -/
def okOr {E A : Type} (e : Except E A) (d : A) : A :=
  match e with
  | .ok a => a
  | .error _ => d

/-! ### Basic lemmas about single insertion and the error accumulation -/

theorem add_response_ok_of_le {T : Type} [LinearOrder T] (s : Survey T)
    (respondent_id : T) (r : ℕ) (h : r ≤ 10) :
    s.add_response respondent_id r =
      .ok { s with responses :=
        btreeInsert respondent_id ⟨respondent_id, ⟨r, h⟩⟩ s.responses } := by
  simp [Survey.add_response, SurveyResponse.new, Rating.tryFrom, h]

theorem add_response_error_of_gt {T : Type} [LinearOrder T] (s : Survey T)
    (respondent_id : T) (r : ℕ) (h : 10 < r) :
    s.add_response respondent_id r = .error (.InvalidRating r) := by
  simp [Survey.add_response, SurveyResponse.new, Rating.tryFrom, Nat.not_le.mpr h]

theorem calculate_nps_responses {T : Type} (s : Survey T) :
    (s.calculate_nps).responses = s.responses := by
  by_cases h : s.responses.length = 0 <;> simp [Survey.calculate_nps, h]

theorem addAll_errors {T : Type} [LinearOrder T] (pairs : List (T × ℕ)) :
    ∀ s : Survey T,
      (s.addAll pairs).2 =
        (pairs.filter fun p => decide (10 < p.2)).map
          fun p => NetPromoterScoreError.InvalidRating p.2 := by
  induction pairs with
  | nil => intro s; rfl
  | cons p rest ih =>
    intro s
    obtain ⟨id, r⟩ := p
    by_cases h : r ≤ 10
    · rw [Survey.addAll, add_response_ok_of_le s id r h]
      have hr : ¬ (10 < r) := Nat.not_lt.mpr h
      simp only [List.filter_cons, decide_eq_true_eq, hr, if_false]
      exact ih _
    · have hgt : 10 < r := Nat.not_le.mp h
      rw [Survey.addAll, add_response_error_of_gt s id r hgt]
      simp only [List.filter_cons, decide_eq_true_eq, hgt, if_true, List.map_cons]
      exact congrArg _ (ih s)

theorem addAll_fst_filter {T : Type} [LinearOrder T] (pairs : List (T × ℕ)) :
    ∀ s : Survey T,
      (s.addAll pairs).1 =
        (s.addAll (pairs.filter fun p => decide (p.2 ≤ 10))).1 := by
  induction pairs with
  | nil => intro s; rfl
  | cons p rest ih =>
    intro s
    obtain ⟨id, r⟩ := p
    by_cases h : r ≤ 10
    · rw [List.filter_cons]
      simp only [decide_eq_true_eq, h, if_true]
      rw [Survey.addAll, Survey.addAll, add_response_ok_of_le s id r h]
      exact ih _
    · have hgt : 10 < r := Nat.not_le.mp h
      rw [List.filter_cons]
      simp only [decide_eq_true_eq, h, if_false]
      rw [Survey.addAll, add_response_error_of_gt s id r hgt]
      exact ih s

theorem add_multiple_responses_snd {T : Type} [LinearOrder T] (s : Survey T)
    (pairs : List (T × ℕ)) :
    (s.add_multiple_responses pairs).2 =
      if pairs.all (fun p => decide (p.2 ≤ 10)) then .ok ()
      else
        .error ((pairs.filter fun p => decide (10 < p.2)).map
          fun p => NetPromoterScoreError.InvalidRating p.2) := by
  unfold Survey.add_multiple_responses
  by_cases hall : pairs.all (fun p => decide (p.2 ≤ 10)) = true
  · have hnil : (pairs.filter fun p => decide (10 < p.2)) = [] := by
      rw [List.filter_eq_nil_iff]
      intro p hp
      have := List.all_eq_true.mp hall p hp
      simp only [decide_eq_true_eq] at this ⊢
      omega
    simp [addAll_errors, hnil, hall]
  · have hne : (pairs.filter fun p => decide (10 < p.2)) ≠ [] := by
      intro hcon
      apply hall
      rw [List.all_eq_true]
      intro p hp
      have := (List.filter_eq_nil_iff.mp hcon) p hp
      simp only [decide_eq_true_eq] at this ⊢
      omega
    have : (pairs.filter fun p => decide (10 < p.2)).map
        (fun p => NetPromoterScoreError.InvalidRating p.2) ≠ [] := by
      simpa using hne
    simp [addAll_errors, this, hall]

theorem add_multiple_responses_fst_responses {T : Type} [LinearOrder T]
    (s : Survey T) (pairs : List (T × ℕ)) :
    (s.add_multiple_responses pairs).1.responses =
      ((s.addAll (pairs.filter fun p => decide (p.2 ≤ 10))).1.responses) := by
  unfold Survey.add_multiple_responses
  by_cases h : (s.addAll pairs).2 = []
  · simp [h, calculate_nps_responses, addAll_fst_filter pairs s]
  · simp [h, addAll_fst_filter pairs s]

theorem segment_length_eq_filter {T : Type} (s : Survey T) (c : Classification) :
    (s.segment c).length =
      (s.responses.filter fun p =>
        decide (Classification.fromRating p.2.score = c)).length := by
  unfold Survey.segment
  rw [List.filter_map, List.length_map]
  rfl

theorem segment_length_le {T : Type} (s : Survey T) (c : Classification) :
    (s.segment c).length ≤ s.responses.length := by
  calc (s.segment c).length ≤ (s.responses.map Prod.snd).length :=
        List.length_filter_le _ _
    _ = s.responses.length := List.length_map _ _

/-! ### Claims about classification, validation and single insertion -/

/-- C3: for every constructible `Rating` the classification mapping is total
(the `unreachable!()` arm can never fire), and it yields `Detractor` iff the
value is in `0..=6`, `Passive` iff it is `7` or `8`, and `Promoter` iff it is
`9` or `10`; the three cases are disjoint and exhaustive over `0..=10`. -/
theorem classification_partition (r : Rating) :
    Classification.fromRaw r.1 = some (Classification.fromRating r) ∧
    (Classification.fromRating r = .Detractor ↔ r.1 ≤ 6) ∧
    (Classification.fromRating r = .Passive ↔ (r.1 = 7 ∨ r.1 = 8)) ∧
    (Classification.fromRating r = .Promoter ↔ (r.1 = 9 ∨ r.1 = 10)) := by
  obtain ⟨v, hv⟩ := r
  have hsome : Classification.fromRaw v =
      some (Classification.fromRating ⟨v, hv⟩) :=
    (Option.some_get _).symm
  have key : ∀ c, Classification.fromRating ⟨v, hv⟩ = c ↔
      Classification.fromRaw v = some c := fun c =>
    ⟨fun h2 => by rw [hsome, h2], fun h2 => by
      rw [hsome] at h2
      exact Option.some_inj.mp h2⟩
  refine ⟨hsome, (key _).trans ?_, (key _).trans ?_, (key _).trans ?_⟩ <;>
  · unfold Classification.fromRaw
    split_ifs <;> simp_all <;> omega

theorem classification_partition_witness :
    Classification.fromRating ⟨8, by decide⟩ = .Passive ↔
      ((8 : ℕ) = 7 ∨ (8 : ℕ) = 8) :=
  (classification_partition ⟨8, by decide⟩).2.2.1

/-- C4: for every raw value of the 8-bit rating type, `Rating::try_from`
succeeds wrapping the value exactly when it is at most 10, and fails with
`InvalidRating` carrying the offending value when it exceeds 10. -/
theorem rating_try_from_range (v : ℕ) (h : v < 256) :
    (∀ h2 : v ≤ 10, Rating.tryFrom v = .ok ⟨v, h2⟩) ∧
    (10 < v → Rating.tryFrom v = .error (.InvalidRating v)) := by
  constructor
  · intro h2
    simp [Rating.tryFrom, h2]
  · intro h2
    simp [Rating.tryFrom, Nat.not_le.mpr h2]

theorem rating_try_from_range_witness :
    (7 : ℕ) < 256 ∧ (99 : ℕ) < 256 ∧
      Rating.tryFrom 7 = .ok ⟨7, by decide⟩ ∧
      Rating.tryFrom 99 = .error (.InvalidRating 99) :=
  ⟨by decide, by decide,
    (rating_try_from_range 7 (by decide)).1 (by decide),
    (rating_try_from_range 99 (by decide)).2 (by decide)⟩

/-- C7: `add_response` with an out-of-range raw rating fails fast, returning
`InvalidRating` with the offending value and leaving the survey exactly as
it was (in this functional embedding no successor state is produced at
all). -/
theorem add_response_fail_fast {T : Type} [LinearOrder T] (s : Survey T)
    (respondent_id : T) (r : ℕ) (h : 10 < r) :
    s.add_response respondent_id r = .error (.InvalidRating r) := by
  simp [Survey.add_response, SurveyResponse.new, Rating.tryFrom, Nat.not_le.mpr h]

theorem add_response_fail_fast_witness :
    10 < 99 ∧
      (Survey.new (T := ℕ)).add_response 1 99 = .error (.InvalidRating 99) :=
  ⟨by decide, add_response_fail_fast Survey.new 1 99 (by decide)⟩

/-! ### Claims about the cache and the score formula -/

/-- C1 (refuted; code bug): `add_response` never invalidates or recomputes
`nps_cache`, so the cached aggregate can go stale.  Concretely: on a fresh
survey insert id 1 with rating 10, call `score` (caching 100), then insert
id 2 with rating 0.  The survey now holds two responses, still caches 100,
and `score` keeps returning 100, while recomputing from the current
responses yields 0. -/
theorem cache_stale_after_add_response :
    (let s1 := okOr ((Survey.new (T := ℕ)).add_response 1 10) Survey.new
     let s2 := s1.score.2
     let s3 := okOr (s2.add_response 2 0) Survey.new
     s3.responses.length = 2 ∧
       s3.nps_cache = some 100 ∧
       s3.score.1 = 100 ∧
       ({ responses := s3.responses, nps_cache := none } : Survey ℕ).score.1 = 0) := by
  decide

/-- C2 (counterexample to the claim as stated): a survey reached by
`add_response`, `score`, `add_response` holds two responses (one promoter,
one detractor) yet `score` returns the stale cached 100 instead of the
formula value `floor(100*1/2) - floor(100*1/2) = 0`. -/
theorem score_formula_counterexample :
    (let s1 := okOr ((Survey.new (T := ℕ)).add_response 1 9) Survey.new
     let s2 := s1.score.2
     let s3 := okOr (s2.add_response 2 2) Survey.new
     s3.responses.length = 2 ∧
       s3.score.1 = 100 ∧
       ¬ (s3.score.1 =
          ((100 * (s3.segment .Promoter).length / s3.responses.length : ℕ) : ℤ)
            - ((100 * (s3.segment .Detractor).length / s3.responses.length : ℕ) : ℤ))) := by
  decide

/-- C2 (amended): whenever the cache is empty, `score` returns 0 on an empty
survey and otherwise `floor(100*promoters/n) - floor(100*detractors/n)` with
truncating division, where promoters and detractors count the stored
responses classified `Promoter` respectively `Detractor`; the result always
lies in `[-100, 100]`. -/
theorem score_formula_when_cache_empty {T : Type} [LinearOrder T]
    (s : Survey T) (h : s.nps_cache = none) :
    (s.responses.length = 0 → s.score.1 = 0) ∧
    (s.responses.length ≠ 0 →
      s.score.1 =
        ((100 * (s.responses.filter fun p =>
            decide (Classification.fromRating p.2.score = .Promoter)).length
          / s.responses.length : ℕ) : ℤ)
        - ((100 * (s.responses.filter fun p =>
            decide (Classification.fromRating p.2.score = .Detractor)).length
          / s.responses.length : ℕ) : ℤ)) ∧
    (-100 ≤ s.score.1 ∧ s.score.1 ≤ 100) := by
  have hscore : s.score.1 = (s.calculate_nps).nps_cache.getD 0 := by
    unfold Survey.score
    rw [h]
  by_cases hn : s.responses.length = 0
  · have hc : (s.calculate_nps).nps_cache = some 0 := by
      simp [Survey.calculate_nps, hn]
    rw [hscore, hc]
    refine ⟨fun _ => rfl, fun hcon => absurd hn hcon, by decide, by decide⟩
  · have hc : (s.calculate_nps).nps_cache =
        some (((100 * (s.segment .Promoter).length / s.responses.length : ℕ) : ℤ)
          - ((100 * (s.segment .Detractor).length / s.responses.length : ℕ) : ℤ)) := by
      simp [Survey.calculate_nps, hn]
    rw [hscore, hc]
    have hple : 100 * (s.segment .Promoter).length / s.responses.length ≤ 100 := by
      have h1 : 100 * (s.segment .Promoter).length ≤ 100 * s.responses.length :=
        Nat.mul_le_mul_left 100 (segment_length_le s .Promoter)
      have h2 := Nat.div_le_div_right (c := s.responses.length) h1
      rwa [Nat.mul_div_cancel 100 (Nat.pos_of_ne_zero hn)] at h2
    have hdle : 100 * (s.segment .Detractor).length / s.responses.length ≤ 100 := by
      have h1 : 100 * (s.segment .Detractor).length ≤ 100 * s.responses.length :=
        Nat.mul_le_mul_left 100 (segment_length_le s .Detractor)
      have h2 := Nat.div_le_div_right (c := s.responses.length) h1
      rwa [Nat.mul_div_cancel 100 (Nat.pos_of_ne_zero hn)] at h2
    have hrange : ∀ a b : ℕ, a ≤ 100 → b ≤ 100 →
        (-100 ≤ (a : ℤ) - (b : ℤ) ∧ (a : ℤ) - (b : ℤ) ≤ 100) := by
      intro a b ha hb
      omega
    simp only [Option.getD_some]
    refine ⟨fun hcon => absurd hcon hn, fun _ => ?_, hrange _ _ hple hdle⟩
    rw [segment_length_eq_filter s .Promoter, segment_length_eq_filter s .Detractor]

theorem score_formula_when_cache_empty_witness :
    (((Survey.new (T := ℕ)).addAll [(1, 9), (2, 8), (3, 6)]).1.score.1 = 0) ∧
    (-100 ≤ ((Survey.new (T := ℕ)).addAll [(1, 9), (2, 8), (3, 6)]).1.score.1 ∧
      ((Survey.new (T := ℕ)).addAll [(1, 9), (2, 8), (3, 6)]).1.score.1 ≤ 100) := by
  have h := score_formula_when_cache_empty
    ((Survey.new (T := ℕ)).addAll [(1, 9), (2, 8), (3, 6)]).1 (by decide)
  exact ⟨by rw [h.2.1 (by decide)]; decide, h.2.2⟩

/-- C6: bulk-inserting the rating/count pairs
`[(1,2),(4,1),(5,1),(5,1),(7,8),(8,10),(10,5),(10,5)]` with the
auto-incrementing id generator (33 distinct fresh ids) succeeds, stores 33
responses, and yields the score 15. -/
theorem bulk_worked_example_c :
    ((Survey.new (T := ℤ)).add_bulk_responses_auto_id
        [(1, 2), (4, 1), (5, 1), (5, 1), (7, 8), (8, 10), (10, 5), (10, 5)]).2
      = .ok () ∧
    ((Survey.new (T := ℤ)).add_bulk_responses_auto_id
        [(1, 2), (4, 1), (5, 1), (5, 1), (7, 8), (8, 10), (10, 5), (10, 5)]).1.responses.length
      = 33 ∧
    ((Survey.new (T := ℤ)).add_bulk_responses_auto_id
        [(1, 2), (4, 1), (5, 1), (5, 1), (7, 8), (8, 10), (10, 5), (10, 5)]).1.score.1
      = 15 := by
  refine ⟨by decide, by decide, by decide⟩

/-! ### Claims about batch insertion and construction -/

/-- C5: `add_multiple_responses` attempts every pair independently: the
final stored responses are those obtained by inserting exactly the valid
pairs (even when others fail), the call returns `Ok(())` exactly when no
pair was invalid, and otherwise it returns one `InvalidRating` error per
invalid pair, in input order. -/
theorem add_multiple_responses_spec {T : Type} [LinearOrder T] (s : Survey T)
    (pairs : List (T × ℕ)) :
    ((s.add_multiple_responses pairs).2 =
      if pairs.all (fun p => decide (p.2 ≤ 10)) then .ok ()
      else
        .error ((pairs.filter fun p => decide (10 < p.2)).map
          fun p => NetPromoterScoreError.InvalidRating p.2)) ∧
    (s.add_multiple_responses pairs).1.responses =
      ((s.addAll (pairs.filter fun p => decide (p.2 ≤ 10))).1.responses) :=
  ⟨add_multiple_responses_snd s pairs, add_multiple_responses_fst_responses s pairs⟩

theorem add_multiple_responses_spec_witness :
    ((Survey.new (T := ℕ)).add_multiple_responses [(1, 5), (2, 99), (3, 7)]).2 =
      .error [.InvalidRating 99] ∧
    ((Survey.new (T := ℕ)).add_multiple_responses
        [(1, 5), (2, 99), (3, 7)]).1.responses.length = 2 := by
  have h := add_multiple_responses_spec (Survey.new (T := ℕ)) [(1, 5), (2, 99), (3, 7)]
  refine ⟨?_, ?_⟩
  · rw [h.1]
    decide
  · rw [h.2]
    decide

/-- C9: `from_responses` behaves exactly like `new()` followed by
`add_multiple_responses`: with all pairs valid it returns `Ok` with that
survey; with any invalid pair it discards the partially-built survey and
returns exactly the converted error list `add_multiple_responses` would
produce. -/
theorem from_responses_equiv {T E : Type} [LinearOrder T]
    (f : NetPromoterScoreError → E) (pairs : List (T × ℕ)) :
    Survey.from_responses f pairs =
      if pairs.all (fun p => decide (p.2 ≤ 10))
      then .ok ((Survey.new (T := T)).add_multiple_responses pairs).1
      else
        .error ((pairs.filter fun p => decide (10 < p.2)).map
          fun p => f (.InvalidRating p.2)) := by
  have hsnd := add_multiple_responses_snd (Survey.new (T := T)) pairs
  unfold Survey.from_responses
  split
  next survey val heq =>
    have hsnd2 : ((Survey.new (T := T)).add_multiple_responses pairs).2 = .ok val := by
      rw [heq]
    rw [hsnd] at hsnd2
    by_cases hall : pairs.all (fun p => decide (p.2 ≤ 10)) = true
    · rw [if_pos hall]
      have : ((Survey.new (T := T)).add_multiple_responses pairs).1 = survey := by
        rw [heq]
      rw [this]
    · rw [if_neg hall] at hsnd2
      exact absurd hsnd2 (by simp)
  next survey errors heq =>
    have hsnd2 : ((Survey.new (T := T)).add_multiple_responses pairs).2 =
        .error errors := by
      rw [heq]
    rw [hsnd] at hsnd2
    by_cases hall : pairs.all (fun p => decide (p.2 ≤ 10)) = true
    · rw [if_pos hall] at hsnd2
      exact absurd hsnd2 (by simp)
    · rw [if_neg hall] at hsnd2 ⊢
      have herr := (Except.error.injEq _ _).mp hsnd2.symm
      rw [herr]
      simp [List.map_map, Function.comp]

theorem from_responses_equiv_witness :
    Survey.from_responses (T := ℕ) (E := NetPromoterScoreError) id
        [(1, 5), (2, 99), (3, 7)] = .error [.InvalidRating 99] := by
  rw [from_responses_equiv id [(1, 5), (2, 99), (3, 7)]]
  decide

/-! ### Lemmas about `btreeInsert` on sorted association lists -/

theorem btreeInsert_mem {T V : Type} [LinearOrder T] (k : T) (v : V) :
    ∀ (l : List (T × V)) (x : T × V), x ∈ btreeInsert k v l → x = (k, v) ∨ x ∈ l := by
  intro l
  induction l with
  | nil =>
    intro x hx
    simp only [btreeInsert, List.mem_singleton] at hx
    exact Or.inl hx
  | cons p rest ih =>
    obtain ⟨k0, v0⟩ := p
    intro x hx
    rw [btreeInsert] at hx
    split_ifs at hx with h1 h2
    · rcases List.mem_cons.mp hx with h | h
      · exact Or.inl h
      · exact Or.inr h
    · rcases List.mem_cons.mp hx with h | h
      · exact Or.inl h
      · exact Or.inr (List.mem_cons_of_mem _ h)
    · rcases List.mem_cons.mp hx with h | h
      · exact Or.inr (h ▸ List.mem_cons_self _ _)
      · rcases ih x h with h3 | h3
        · exact Or.inl h3
        · exact Or.inr (List.mem_cons_of_mem _ h3)

theorem btreeInsert_pairwise {T V : Type} [LinearOrder T] (k : T) (v : V) :
    ∀ l : List (T × V), (l.Pairwise fun a b => a.1 < b.1) →
      ((btreeInsert k v l).Pairwise fun a b => a.1 < b.1) := by
  intro l
  induction l with
  | nil =>
    intro _
    simp [btreeInsert]
  | cons p rest ih =>
    obtain ⟨k0, v0⟩ := p
    intro h
    rw [List.pairwise_cons] at h
    obtain ⟨hforall, hrest⟩ := h
    rw [btreeInsert]
    split_ifs with h1 h2
    · rw [List.pairwise_cons]
      refine ⟨?_, List.pairwise_cons.mpr ⟨hforall, hrest⟩⟩
      intro x hx
      rcases List.mem_cons.mp hx with h3 | h3
      · rw [h3]
        exact h1
      · exact lt_trans h1 (hforall x h3)
    · rw [List.pairwise_cons]
      refine ⟨?_, hrest⟩
      intro x hx
      rw [h2]
      exact hforall x hx
    · rw [List.pairwise_cons]
      refine ⟨?_, ih hrest⟩
      intro x hx
      rcases btreeInsert_mem k v rest x hx with h3 | h3
      · rw [h3]
        exact lt_of_le_of_ne (le_of_not_lt h1) (fun he => h2 he.symm)
      · exact hforall x h3

theorem filter_key_eq_nil {T V : Type} [LinearOrder T] (k : T) (l : List (T × V))
    (h : ∀ p ∈ l, k < p.1) : l.filter (fun p => decide (p.1 = k)) = [] := by
  rw [List.filter_eq_nil_iff]
  intro p hp
  simp only [decide_eq_true_eq]
  exact (h p hp).ne'

theorem btreeInsert_filter_self {T V : Type} [LinearOrder T] (k : T) (v : V)
    [DecidableEq V] :
    ∀ l : List (T × V), (l.Pairwise fun a b => a.1 < b.1) →
      (btreeInsert k v l).filter (fun p => decide (p.1 = k)) = [(k, v)] := by
  intro l
  induction l with
  | nil =>
    intro _
    simp [btreeInsert]
  | cons p rest ih =>
    obtain ⟨k0, v0⟩ := p
    intro h
    rw [List.pairwise_cons] at h
    obtain ⟨hforall, hrest⟩ := h
    rw [btreeInsert]
    split_ifs with h1 h2
    · have hne : k0 ≠ k := h1.ne'
      have hrestnil : rest.filter (fun p => decide (p.1 = k)) = [] :=
        filter_key_eq_nil k rest (fun p hp => lt_trans h1 (hforall p hp))
      simp [List.filter_cons, hne, hrestnil]
    · have hrestnil : rest.filter (fun p => decide (p.1 = k)) = [] :=
        filter_key_eq_nil k rest (fun p hp => by
          rw [h2]
          exact hforall p hp)
      simp [List.filter_cons, hrestnil]
    · have hne : k0 ≠ k := fun he => h2 he.symm
      simp [List.filter_cons, hne, ih hrest]

theorem btreeInsert_length_of_mem {T V : Type} [LinearOrder T] (k : T) (v : V) :
    ∀ l : List (T × V), (l.Pairwise fun a b => a.1 < b.1) →
      k ∈ l.map Prod.fst → (btreeInsert k v l).length = l.length := by
  intro l
  induction l with
  | nil =>
    intro _ hmem
    simp at hmem
  | cons p rest ih =>
    obtain ⟨k0, v0⟩ := p
    intro h hmem
    rw [List.pairwise_cons] at h
    obtain ⟨hforall, hrest⟩ := h
    rw [List.map_cons, List.mem_cons] at hmem
    rw [btreeInsert]
    split_ifs with h1 h2
    · exfalso
      rcases hmem with h3 | h3
      · exact absurd (h3 ▸ h1) (lt_irrefl k)
      · obtain ⟨q, hq, hqk⟩ := List.mem_map.mp h3
        exact absurd (hqk ▸ hforall q hq) (fun hcon => not_lt_of_gt hcon h1)
    · simp
    · have h3 : k ∈ rest.map Prod.fst := by
        rcases hmem with h4 | h4
        · exact absurd h4 h2
        · exact h4
      simp [ih hrest h3]

/-- C8: on a well-formed (key-sorted) survey, successfully inserting
`(x, 3)` and then `(x, 9)` leaves exactly one stored response keyed `x`,
holding rating 9; and in general a successful `add_response` whose key is
already present replaces that entry, leaving the total count unchanged. -/
theorem add_response_overwrites {T : Type} [LinearOrder T] (s : Survey T)
    (x : T) (h : s.responses.Pairwise fun a b => a.1 < b.1) :
    ((okOr ((okOr (s.add_response x 3) s).add_response x 9) s).responses.filter
        fun p => decide (p.1 = x)) = [(x, ⟨x, ⟨9, by decide⟩⟩)] ∧
    (∀ (id : T) (r : ℕ) (s2 : Survey T), id ∈ s.responses.map Prod.fst →
      s.add_response id r = .ok s2 →
        s2.responses.length = s.responses.length) := by
  constructor
  · have h3 : okOr (s.add_response x 3) s =
        { s with responses := btreeInsert x ⟨x, ⟨3, by decide⟩⟩ s.responses } := by
      rw [add_response_ok_of_le s x 3 (by decide)]
      rfl
    rw [h3]
    have h9 := add_response_ok_of_le
      { s with responses := btreeInsert x ⟨x, ⟨3, by decide⟩⟩ s.responses } x 9 (by decide)
    rw [h9]
    exact btreeInsert_filter_self x _ _ (btreeInsert_pairwise x _ s.responses h)
  · intro id r s2 hmem hok
    by_cases hr : r ≤ 10
    · rw [add_response_ok_of_le s id r hr] at hok
      have hs2 := (Except.ok.injEq _ _).mp hok
      rw [← hs2]
      exact btreeInsert_length_of_mem id _ s.responses h hmem
    · rw [add_response_error_of_gt s id r (Nat.not_le.mp hr)] at hok
      exact absurd hok (by simp)

theorem add_response_overwrites_witness :
    ((okOr ((okOr ((Survey.new (T := ℕ)).add_response 5 3) Survey.new).add_response 5 9)
        Survey.new).responses.filter fun p => decide (p.1 = 5)) =
      [(5, ⟨5, ⟨9, by decide⟩⟩)] :=
  (add_response_overwrites (Survey.new (T := ℕ)) 5 List.Pairwise.nil).1

/-! ### Lemmas about the auto-id generator and bulk insertion -/

theorem genPairs_counter (score : ℕ) :
    ∀ (n : ℕ) (c : ℤ),
      genPairs (fun m => (m, m + 1)) c score n =
        (((List.range n).map fun i => ((c + (i : ℕ) : ℤ), score)), c + (n : ℕ)) := by
  intro n
  induction n with
  | zero =>
    intro c
    simp [genPairs]
  | succ k ih =>
    intro c
    rw [genPairs, ih (c + 1)]
    simp only [Prod.mk.injEq]
    constructor
    · rw [List.range_succ_eq_map, List.map_cons, List.map_map]
      simp only [List.cons.injEq]
      refine ⟨by simp, ?_⟩
      refine List.map_congr_left ?_
      intro i _
      simp only [Function.comp_apply, Prod.mk.injEq]
      refine ⟨by push_cast; ring, by trivial⟩
    · push_cast
      ring

theorem btreeInsert_append {T V : Type} [LinearOrder T] (k : T) (v : V) :
    ∀ l : List (T × V), (∀ p ∈ l, p.1 < k) → btreeInsert k v l = l ++ [(k, v)] := by
  intro l
  induction l with
  | nil =>
    intro _
    rfl
  | cons p rest ih =>
    obtain ⟨k0, v0⟩ := p
    intro h
    have hk0 : k0 < k := h (k0, v0) (List.mem_cons_self _ _)
    rw [btreeInsert, if_neg (lt_asymm hk0), if_neg hk0.ne',
      ih (fun q hq => h q (List.mem_cons_of_mem _ hq))]
    rfl

theorem addAll_keys_fresh {T : Type} [LinearOrder T] :
    ∀ (batch : List (T × ℕ)) (s : Survey T),
      (∀ p ∈ batch, p.2 ≤ 10) →
      ((s.responses.map Prod.fst ++ batch.map Prod.fst).Pairwise (· < ·)) →
      (s.addAll batch).1.responses.map Prod.fst =
        s.responses.map Prod.fst ++ batch.map Prod.fst := by
  intro batch
  induction batch with
  | nil =>
    intro s _ _
    simp [Survey.addAll]
  | cons p rest ih =>
    obtain ⟨id, r⟩ := p
    intro s hv hpair
    have hr : r ≤ 10 := hv (id, r) (List.mem_cons_self _ _)
    rw [Survey.addAll, add_response_ok_of_le s id r hr]
    rw [List.map_cons] at hpair
    have hsplit := List.pairwise_append.mp hpair
    have hlt : ∀ p2 ∈ s.responses, p2.1 < id := by
      intro p2 hp2
      exact hsplit.2.2 p2.1 (List.mem_map_of_mem Prod.fst hp2) id
        (List.mem_cons_self _ _)
    have hins : btreeInsert id (⟨id, ⟨r, hr⟩⟩ : SurveyResponse T) s.responses =
        s.responses ++ [(id, ⟨id, ⟨r, hr⟩⟩)] := btreeInsert_append id _ s.responses hlt
    have hpair2 : (((s.responses ++ [(id, (⟨id, ⟨r, hr⟩⟩ : SurveyResponse T))]).map
        Prod.fst ++ rest.map Prod.fst).Pairwise (· < ·)) := by
      rw [List.map_append, List.append_assoc]
      simpa using hpair
    have := ih { s with responses := s.responses ++ [(id, ⟨id, ⟨r, hr⟩⟩)] }
      (fun q hq => hv q (List.mem_cons_of_mem _ hq)) hpair2
    rw [hins]
    rw [this]
    simp [List.map_append]

theorem range_map_cast_add (c : ℤ) (a b : ℕ) :
    (List.range (a + b)).map (fun i => c + (i : ℕ)) =
      (List.range a).map (fun i => c + (i : ℕ))
        ++ (List.range b).map (fun i => c + (a : ℕ) + (i : ℕ)) := by
  rw [List.range_add, List.map_append, List.map_map]
  refine congrArg _ (List.map_congr_left ?_)
  intro i _
  simp only [Function.comp_apply]
  push_cast
  ring

theorem bulkGo_keys :
    ∀ (nps_scores : List (ℕ × ℕ)) (s : Survey ℤ) (c : ℤ),
      (∀ p ∈ nps_scores, p.1 ≤ 10) →
      ((s.responses.map Prod.fst).Pairwise (· < ·)) →
      (∀ k ∈ s.responses.map Prod.fst, k < c) →
      (Survey.add_bulk_responsesGo s (fun m => (m, m + 1)) c
          nps_scores).1.1.responses.map Prod.fst
        = s.responses.map Prod.fst
          ++ (List.range (nps_scores.map Prod.snd).sum).map fun i => c + (i : ℕ) := by
  intro nps_scores
  induction nps_scores with
  | nil =>
    intro s c _ _ _
    simp [Survey.add_bulk_responsesGo]
  | cons p rest ih =>
    obtain ⟨score, count⟩ := p
    intro s c hv hsort hbound
    have hscore : score ≤ 10 := hv (score, count) (List.mem_cons_self _ _)
    simp only [Survey.add_bulk_responsesGo]
    rw [genPairs_counter score count c]
    have hbatchvalid : ∀ q ∈ (List.range count).map
        (fun i => ((c + (i : ℕ) : ℤ), score)), q.2 ≤ 10 := by
      intro q hq
      obtain ⟨i, _, rfl⟩ := List.mem_map.mp hq
      exact hscore
    have hbatchkeys : ((List.range count).map
        (fun i => ((c + (i : ℕ) : ℤ), score))).map Prod.fst =
        (List.range count).map (fun i => c + (i : ℕ)) := by
      rw [List.map_map]
      rfl
    have hpairfull : ((s.responses.map Prod.fst
        ++ (List.range count).map (fun i => c + (i : ℕ))).Pairwise (· < ·)) := by
      rw [List.pairwise_append]
      refine ⟨hsort, ?_, ?_⟩
      · refine List.Pairwise.map _ ?_ (List.pairwise_lt_range count)
        intro a b hab
        omega
      · intro a ha b hb
        obtain ⟨i, _, rfl⟩ := List.mem_map.mp hb
        have := hbound a ha
        omega
    have hkeys2 : ((s.add_multiple_responses ((List.range count).map
        (fun i => ((c + (i : ℕ) : ℤ), score)))).1.responses.map Prod.fst) =
        s.responses.map Prod.fst ++ (List.range count).map (fun i => c + (i : ℕ)) := by
      rw [add_multiple_responses_fst_responses]
      rw [List.filter_eq_self.mpr (fun q hq => by
        simp only [decide_eq_true_eq]
        exact hbatchvalid q hq)]
      rw [addAll_keys_fresh _ s hbatchvalid (by rw [hbatchkeys]; exact hpairfull)]
      rw [hbatchkeys]
    rw [ih _ (c + (count : ℕ))
      (fun q hq => hv q (List.mem_cons_of_mem _ hq))
      (by rw [hkeys2]; exact hpairfull)
      (by
        rw [hkeys2]
        intro k hk
        rcases List.mem_append.mp hk with h3 | h3
        · have := hbound k h3
          omega
        · obtain ⟨i, hi, rfl⟩ := List.mem_map.mp h3
          have := List.mem_range.mp hi
          omega)]
    rw [hkeys2]
    rw [List.map_cons, List.sum_cons, range_map_cast_add c count, List.append_assoc]

theorem add_bulk_responses_fst_responses {T G : Type} [LinearOrder T]
    (s : Survey T) (gen : G → T × G) (g : G) (nps_scores : List (ℕ × ℕ)) :
    (s.add_bulk_responses gen g nps_scores).1.1.responses =
      (Survey.add_bulk_responsesGo s gen g nps_scores).1.1.responses := by
  unfold Survey.add_bulk_responses
  by_cases he : (Survey.add_bulk_responsesGo s gen g nps_scores).2 = []
  · simp [he, calculate_nps_responses]
  · simp [he]

theorem add_bulk_responses_auto_id_fst_responses (s : Survey ℤ)
    (nps_scores : List (ℕ × ℕ)) :
    (s.add_bulk_responses_auto_id nps_scores).1.responses =
      (Survey.add_bulk_responsesGo s (fun m => (m, m + 1)) 1
        nps_scores).1.1.responses := by
  unfold Survey.add_bulk_responses_auto_id
  exact add_bulk_responses_fst_responses s _ 1 nps_scores

/-- C10: each call of `add_bulk_responses_auto_id` initializes its id counter
to 1, so the ids used within one call on a fresh survey are exactly
`1, 2, …, k` for `k` the total requested count; the counter does not persist
across calls: a second call reuses ids starting from 1 and overwrites the
entries the first call stored under those ids. -/
theorem auto_id_resets_per_call :
    (∀ nps_scores : List (ℕ × ℕ),
      (∀ p ∈ nps_scores, p.1 ≤ 10) →
      ((Survey.new (T := ℤ)).add_bulk_responses_auto_id
          nps_scores).1.responses.map Prod.fst
        = (List.range (nps_scores.map Prod.snd).sum).map
            fun i => (1 : ℤ) + (i : ℕ)) ∧
    ((((Survey.new (T := ℤ)).add_bulk_responses_auto_id
          [(10, 2)]).1.add_bulk_responses_auto_id
        [(0, 1)]).1.responses.map fun p => (p.1, p.2.score.1))
      = [(1, 0), (2, 10)] := by
  constructor
  · intro nps_scores hv
    rw [add_bulk_responses_auto_id_fst_responses]
    have hgo := bulkGo_keys nps_scores Survey.new 1 hv
      (by simp [Survey.new]) (by simp [Survey.new])
    rw [hgo]
    simp [Survey.new]
  · decide

theorem auto_id_resets_per_call_witness :
    ((Survey.new (T := ℤ)).add_bulk_responses_auto_id
        [(9, 2), (3, 1)]).1.responses.map Prod.fst
      = (List.range ((([(9, 2), (3, 1)] : List (ℕ × ℕ)).map Prod.snd).sum)).map
          fun i => (1 : ℤ) + (i : ℕ) :=
  auto_id_resets_per_call.1 [(9, 2), (3, 1)] (by decide)
